import Mathlib

/-!
Verification of the benchmark-orchestration script `Project1/scripts/run.py`.

Python strings are shallowly embedded as `List Char` (`PyStr`), files as
explicit data (lists of lines / CSV rows), and fallible Python code as
`Except String`.  Python's builtin `float(...)` string parser and
`math`-level square root (used inside `statistics.pstdev`/`stdev`) are not
part of the repository; they are abstracted as parameters (`PyFloat`,
`sq : ℚ → ℚ`) and every theorem is proved for all instantiations.
Numbers are modelled as rationals.
-/

deriving instance DecidableEq for Except

namespace RunBench

/-- Python `str` modelled as a list of characters. -/
abbrev PyStr := List Char

/-- Whitespace test used by Python's `str.strip()`. -/
def isSpace (c : Char) : Bool := c.isWhitespace

/-- Python `str.lstrip()`: drop leading whitespace. -/
def lstrip (s : PyStr) : PyStr := s.dropWhile isSpace

/-- Python `str.rstrip()`: drop trailing whitespace. -/
def rstrip (s : PyStr) : PyStr := (s.reverse.dropWhile isSpace).reverse

/-- Python `str.strip()`: drop leading and trailing whitespace. -/
def pyStrip (s : PyStr) : PyStr := rstrip (lstrip s)

/-- Python `str.lower()` (per-character lowering). -/
def pyLower (s : PyStr) : PyStr := s.map Char.toLower

/-- `stripped.split("=", 1)[0]`: everything before the first `'='`. -/
def keyOf (s : PyStr) : PyStr := s.takeWhile (fun c => c ≠ '=')

/-- `stripped.startswith("#")`. -/
def startsHash (s : PyStr) : Prop := s.headD ' ' = '#'

instance (s : PyStr) : Decidable (startsHash s) := by
  unfold startsHash; infer_instance

/-- The guard `not stripped or stripped.startswith("#") or "=" not in stripped`
of `set_cfg_value`, applied to the already-stripped line. -/
def skipLine (s : PyStr) : Prop := s = [] ∨ startsHash s ∨ '=' ∉ s

instance (s : PyStr) : Decidable (skipLine s) := by
  unfold skipLine; infer_instance

/-- One iteration of the `for line in lines` loop of `set_cfg_value`
(`run.py` lines 75–98).  The accumulator is `(out, found)`. -/
def set_cfg_step (key_lower value : PyStr) (acc : List PyStr × Bool)
    (line : PyStr) : List PyStr × Bool :=
  let stripped := pyStrip line
  if skipLine stripped then (acc.1 ++ [line], acc.2)
  else
    let k := keyOf stripped
    if pyLower (pyStrip k) = key_lower then
      (acc.1 ++ [pyStrip k ++ '=' :: value], true)
    else (acc.1 ++ [line], acc.2)

/-- `set_cfg_value(lines, key, value)` from `run.py` lines 75–98: rewrite
`key=value` lines (case-insensitive key match), append `key=value` if the
key was not found. -/
def set_cfg_value (lines : List PyStr) (key value : PyStr) : List PyStr :=
  let key_lower := pyLower key
  let r := lines.foldl (set_cfg_step key_lower value) ([], false)
  if r.2 then r.1 else r.1 ++ [key ++ '=' :: value]

/-- Whether `set_cfg_value` with lowered key `key_lower` rewrites `line`. -/
def lineMatches (key_lower line : PyStr) : Prop :=
  ¬ skipLine (pyStrip line) ∧ pyLower (pyStrip (keyOf (pyStrip line))) = key_lower

instance (k l : PyStr) : Decidable (lineMatches k l) := by
  unfold lineMatches; infer_instance

/-- What `set_cfg_value` does to one line of its input. -/
def rewriteLine (key_lower value line : PyStr) : PyStr :=
  if lineMatches key_lower line then
    pyStrip (keyOf (pyStrip line)) ++ '=' :: value
  else line

/-- `"\n".join(lines)`. -/
def joinNL : List PyStr → PyStr
  | [] => []
  | [x] => x
  | x :: y :: r => x ++ '\n' :: joinNL (y :: r)

/-- `write_cfg` (`run.py` lines 101–103) writes `"\n".join(lines) + "\n"`;
this is the byte content of the written file. -/
def write_cfg (lines : List PyStr) : PyStr := joinNL lines ++ ['\n']

/-- The line-boundary characters of Python `str.splitlines()`:
`\n`, `\r`, `\v` (0x0b), `\f` (0x0c), the separators 0x1c–0x1e, NEL
(0x85), and the Unicode line/paragraph separators U+2028/U+2029. -/
def isLineBreak (c : Char) : Bool :=
  c == '\n' || c == '\r' || c == '\x0b' || c == '\x0c' || c == '\x1c' ||
  c == '\x1d' || c == '\x1e' || c == '\x85' || c == '\u2028' || c == '\u2029'

/-- Helper for the universal-newline translation: the flag records
whether the previous character was a `\r` (so that the `\n` of a `\r\n`
pair is dropped). -/
def univAux : PyStr → Bool → PyStr
  | [], _ => []
  | c :: rest, afterCR =>
    if c = '\r' then '\n' :: univAux rest true
    else if c = '\n' then
      (if afterCR then [] else ['\n']) ++ univAux rest false
    else c :: univAux rest false

/-- Universal-newline translation performed by `parse_cfg`'s text-mode
`open(..., "r")`: `\r\n` and lone `\r` both become `\n`. -/
def univNewlines (s : PyStr) : PyStr := univAux s false

/-- Helper for `str.splitlines()`: `cur` is the partial current line and
the flag records whether the previous character was a `\r` (a `\r\n`
pair counts as a single boundary). -/
def splitlinesAux : PyStr → PyStr → Bool → List PyStr
  | [], cur, _ => if cur.isEmpty then [] else [cur]
  | c :: rest, cur, afterCR =>
    if c = '\r' then cur :: splitlinesAux rest [] true
    else if c = '\n' then
      if afterCR then splitlinesAux rest cur false
      else cur :: splitlinesAux rest [] false
    else if isLineBreak c then cur :: splitlinesAux rest [] false
    else splitlinesAux rest (cur ++ [c]) false

/-- Python `str.splitlines()`: splits at every line boundary (treating
`\r\n` as one), without a trailing empty line when the text ends in a
boundary. -/
def splitlines (s : PyStr) : List PyStr := splitlinesAux s [] false

/-- `parse_cfg` (`run.py` lines 69–72) applied to the byte content of the
file: text-mode `open` translates universal newlines, then
`f.read().splitlines()`. -/
def parse_cfg (content : PyStr) : List PyStr := splitlines (univNewlines content)

-- concrete sanity checks of the config embedding
example : set_cfg_value ["A=1".toList, "a=2".toList] "a".toList "9".toList
    = ["A=9".toList, "a=9".toList] := by decide
example : set_cfg_value ["# c".toList, "x=1".toList] "seed".toList "5".toList
    = ["# c".toList, "x=1".toList, "seed=5".toList] := by decide
example : set_cfg_value [" Seed = 3".toList] "seed".toList "7".toList
    = ["Seed=7".toList] := by decide
example : parse_cfg (write_cfg ["a=1".toList, "".toList, "#c".toList])
    = ["a=1".toList, "".toList, "#c".toList] := by decide
example : parse_cfg (write_cfg []) = [[]] := by decide

/-! ## CSV reading (`read_fitness_csv`, `run.py` lines 113–146) -/

/-- Abstraction of Python's builtin `float(...)` string parser: `.error`
models the `ValueError` it raises on an unparsable string. -/
abbrev PyFloat := PyStr → Except String ℚ

/-- A CSV file as seen through `csv.DictReader`: the header line and the
raw data rows (each row a list of cell strings). -/
structure CsvFile where
  headers : List PyStr
  rows : List (List PyStr)
  deriving DecidableEq

/-- Index of the last occurrence of header `c` (with duplicate field names,
`csv.DictReader`'s row dict keeps the value of the last occurrence). -/
def lastIdx (hs : List PyStr) (c : PyStr) : Option ℕ :=
  ((hs.enum.filter (fun p => p.2 = c)).getLast?).map Prod.fst

/-- `row.get(c)` on a `csv.DictReader` row: `none` when `c` is not a field
name or the row is too short (`restval=None`). -/
def rowGet (hs : List PyStr) (row : List PyStr) (c : PyStr) : Option PyStr :=
  match lastIdx hs c with
  | none => none
  | some i => row[i]?

/-- The column name `fitness`. -/
def fitCol : PyStr := "fitness".toList

/-- The column name `eval_time_ms`. -/
def evalCol : PyStr := "eval_time_ms".toList

/-- The `continue` guard of `read_fitness_csv`:
`row.get("fitness") is None or row["fitness"].strip() == ""`. -/
def skipRow (hs : List PyStr) (row : List PyStr) : Prop :=
  match rowGet hs row fitCol with
  | none => True
  | some s => pyStrip s = []

instance (hs : List PyStr) (row : List PyStr) : Decidable (skipRow hs row) := by
  unfold skipRow
  match rowGet hs row fitCol with
  | none => exact inferInstanceAs (Decidable True)
  | some s => exact inferInstanceAs (Decidable (pyStrip s = []))

/-- The `for row in reader` loop of `read_fitness_csv`: accumulates parsed
fitness values and grabs `eval_time_ms` from the first non-skipped row.
A missing `eval_time_ms` cell models `float(None)` raising `TypeError`. -/
def readRows (pf : PyFloat) (hs : List PyStr) :
    List (List PyStr) → List ℚ → Option ℚ → Except String (List ℚ × Option ℚ)
  | [], acc, et => .ok (acc, et)
  | row :: rest, acc, et =>
    if skipRow hs row then readRows pf hs rest acc et
    else
      match rowGet hs row fitCol with
      | none => readRows pf hs rest acc et
      | some s =>
        match pf s with
        | .error e => .error e
        | .ok fv =>
          match et with
          | some t => readRows pf hs rest (acc ++ [fv]) (some t)
          | none =>
            match rowGet hs row evalCol with
            | none => .error "TypeError: float() argument is None"
            | some ts =>
              match pf ts with
              | .error e => .error e
              | .ok tv => readRows pf hs rest (acc ++ [fv]) (some tv)

/-- `read_fitness_csv` (`run.py` lines 113–146): validates the header,
collects the fitness column, grabs `eval_time_ms` once, and raises when no
usable row was found. -/
def read_fitness_csv (pf : PyFloat) (f : CsvFile) :
    Except String (List ℚ × ℚ) :=
  if fitCol ∈ f.headers then
    if evalCol ∈ f.headers then
      match readRows pf f.headers f.rows [] none with
      | .error e => .error e
      | .ok (_, none) => .error "ValueError: No rows found to read eval_time_ms"
      | .ok (vals, some et) => .ok (vals, et)
    else .error "ValueError: Missing eval_time_ms column"
  else .error "ValueError: Missing fitness column"

/-- `run_program` (`run.py` lines 106–110) applied to the returncode of the
completed subprocess: raises `RuntimeError` exactly on non-zero exit. -/
def run_program (returncode : Int) : Except String Unit :=
  if returncode ≠ 0 then .error "RuntimeError: Program failed" else .ok ()

/-! ## Master CSV (`append_run_to_master`, `run.py` lines 149–160) -/

/-- One line of the master CSV: the header line or a data row
`run,experiment,fitness,eval_time_ms`. -/
inductive MasterRow where
  | header
  | data (run : ℕ) (experiment : ℕ) (fitness : ℚ) (eval_time_ms : ℚ)
  deriving DecidableEq

/-- The master CSV file content as a list of lines. -/
abbrev Master := List MasterRow

/-- Whether a master-CSV line is a data row. -/
def isDataRow : MasterRow → Bool
  | .header => false
  | .data _ _ _ _ => true

/-- Number of data rows of a master file. -/
def countData (m : Master) : ℕ := m.countP isDataRow

/-- Number of header lines of a master file. -/
def countHeader (m : Master) : ℕ := m.countP (fun r => !isDataRow r)

/-- The rows written by the `for exp_idx, fit in enumerate(fitness_values)`
loop of `append_run_to_master`. -/
def dataRows (run_id : ℕ) (fitness_values : List ℚ) (eval_time_ms : ℚ) : Master :=
  fitness_values.enum.map (fun p => MasterRow.data run_id p.1 p.2 eval_time_ms)

/-- `append_run_to_master` (`run.py` lines 149–160): the master file is
`none` when it does not exist; the file is opened in append mode (creating
it if missing), the header is written only when the file did not exist,
then one data row per fitness value. -/
def append_run_to_master (master : Option Master) (run_id : ℕ)
    (fitness_values : List ℚ) (eval_time_ms : ℚ) : Master :=
  (match master with
   | some content => content
   | none => [MasterRow.header]) ++ dataRows run_id fitness_values eval_time_ms

/-! ## Runtime analytics (`analyze_times_from_master`, `run.py` lines 36–59) -/

/-- Result dict of `analyze_times_from_master`. -/
structure TimeStats where
  runs : ℕ
  avg_ms : ℚ
  min_ms : ℚ
  max_ms : ℚ
  deriving DecidableEq

/-- The `for row in reader` loop of `analyze_times_from_master`: the
insertion-ordered dict `times_by_run`, keyed by `int(row["run"])`, keeping
the first `eval_time_ms` seen per run id.  A header-shaped row makes
`int("run")` raise `ValueError`. -/
def timesByRun : Master → List (ℕ × ℚ) → Except String (List (ℕ × ℚ))
  | [], acc => .ok acc
  | .header :: _, _ => .error "ValueError: invalid literal for int()"
  | .data r _ _ t :: rest, acc =>
    if acc.any (fun q => q.1 = r) then timesByRun rest acc
    else timesByRun rest (acc ++ [(r, t)])

/-- `analyze_times_from_master` (`run.py` lines 36–59): re-reads the whole
master CSV; requires the `eval_time_ms` header (the first line of the file
must be the header line); `mean` raises on an empty collection. -/
def analyze_times_from_master (file : Master) : Except String TimeStats :=
  match file with
  | MasterRow.header :: rest =>
    match timesByRun rest [] with
    | .error e => .error e
    | .ok [] => .error "StatisticsError: mean requires at least one data point"
    | .ok (q :: qs) =>
      .ok { runs := (q :: qs).length
            avg_ms := ((q :: qs).map Prod.snd).sum / (q :: qs).length
            min_ms := (qs.map Prod.snd).foldl min q.2
            max_ms := (qs.map Prod.snd).foldl max q.2 }
  | _ => .error "KeyError: Master CSV missing eval_time_ms"

/-! ## Fitness analytics (`analyze`, `run.py` lines 164–188) -/

/-- Result dict of `analyze`. -/
structure Stats where
  count : ℚ
  mean : ℚ
  pstdev : ℚ
  stdev : ℚ
  min : ℚ
  max : ℚ
  range : ℚ
  median : ℚ
  deriving DecidableEq

/-- `statistics.fmean`: arithmetic mean. -/
def fmean (vs : List ℚ) : ℚ := vs.sum / vs.length

/-- Population variance (what `statistics.pstdev` takes the root of). -/
def popVar (vs : List ℚ) : ℚ :=
  ((vs.map (fun v => (v - fmean vs) ^ 2)).sum) / vs.length

/-- Sample variance (what `statistics.stdev` takes the root of). -/
def sampVar (vs : List ℚ) : ℚ :=
  ((vs.map (fun v => (v - fmean vs) ^ 2)).sum) / ((vs.length : ℚ) - 1)

/-- Insert into a sorted list (model of Python's stable `sorted`). -/
def insSorted (x : ℚ) : List ℚ → List ℚ
  | [] => [x]
  | y :: r => if x ≤ y then x :: y :: r else y :: insSorted x r

/-- `sorted(values)`. -/
def pySorted (vs : List ℚ) : List ℚ := vs.foldr insSorted []

/-- `statistics.median`: middle of the sorted list, or the average of the
two middle elements for even length. -/
def pyMedian (vs : List ℚ) : ℚ :=
  let s := pySorted vs
  let n := s.length
  if n % 2 = 1 then s.getD (n / 2) 0
  else (s.getD (n / 2 - 1) 0 + s.getD (n / 2) 0) / 2

/-- `analyze` (`run.py` lines 164–188), parameterized by the square root
`sq` used by `statistics.pstdev`/`statistics.stdev`: raises on an empty
input, and uses `0.0` instead of the sample stdev for fewer than two
values. -/
def analyze (sq : ℚ → ℚ) (vs : List ℚ) : Except String Stats :=
  match vs with
  | [] => .error "ValueError: No fitness values to analyze."
  | v :: rest =>
    let lo := rest.foldl min v
    let hi := rest.foldl max v
    .ok { count := ((v :: rest).length : ℚ)
          mean := fmean (v :: rest)
          pstdev := sq (popVar (v :: rest))
          stdev := if 2 ≤ (v :: rest).length then sq (sampVar (v :: rest)) else 0
          min := lo
          max := hi
          range := hi - lo
          median := pyMedian (v :: rest) }

/-! ## The `main` run loop (`run.py` lines 191–308)

The external program is an opaque collaborator: per run it is modelled by
a `RunOutcome` (whether `subprocess.run` timed out, the exit code, and the
CSV file the program wrote at the per-run `output` path, `none` when it
wrote no file so that opening it raises `FileNotFoundError`).  The config
templating of each run (`set_cfg_value` on `output`/`seed`, `write_cfg`)
only feeds this opaque program and is not observable in the results. -/

/-- What happened when the external program was invoked for one run. -/
structure RunOutcome where
  timedOut : Bool
  returncode : Int
  outFile : Option CsvFile
  deriving DecidableEq

/-- One iteration of the run loop up to (and including) reading the
per-run CSV: `subprocess.run` (raising `TimeoutExpired` on timeout),
the exit-code check of `run_program`, opening the per-run output file,
and `read_fitness_csv`. -/
def doRun (pf : PyFloat) (o : RunOutcome) : Except String (List ℚ × ℚ) :=
  if o.timedOut then .error "TimeoutExpired"
  else
    match run_program o.returncode with
    | .error e => .error e
    | .ok _ =>
      match o.outFile with
      | none => .error "FileNotFoundError"
      | some f => read_fitness_csv pf f

/-- State after the `for run_id in range(runs)` loop (or after the
uncaught exception that terminated it): the master file, the collected
`all_values`, the number of runs that completed, and the propagated
exception if any. -/
structure LoopRes where
  master : Option Master
  acc : List ℚ
  executed : ℕ
  res : Except String Unit
  deriving DecidableEq

/-- The `for run_id in range(runs)` loop of `main` (`run.py` lines
241–268): each run invokes the program, reads its CSV and appends to the
master; any exception aborts the loop immediately (nothing in the script
catches it). -/
def mainLoop (pf : PyFloat) (outs : ℕ → RunOutcome) :
    ℕ → ℕ → Option Master → List ℚ → LoopRes
  | 0, _, m, acc => ⟨m, acc, 0, .ok ()⟩
  | n + 1, rid, m, acc =>
    match doRun pf (outs rid) with
    | .error e => ⟨m, acc, 0, .error e⟩
    | .ok (vals, et) =>
      let r := mainLoop pf outs n (rid + 1)
        (some (append_run_to_master m rid vals et)) (acc ++ vals)
      ⟨r.master, r.acc, r.executed + 1, r.res⟩

/-- Observable result of `main`: the final master file, how many runs
completed, the exit code (`.error` models an uncaught exception, which
makes the interpreter exit non-zero), and the `ERROR:` line printed to
standard error by argument validation, if any. -/
structure MainResult where
  master : Option Master
  executed : ℕ
  exit : Except String Int
  stderrMsg : Option String
  deriving DecidableEq

/-- What `main` does after the run loop (`run.py` lines 270–306):
`analyze` over all collected values, then `analyze_times_from_master`
over the master file; an exception from the loop itself propagates. -/
def finishMain (sq : ℚ → ℚ) (lr : LoopRes) : MainResult :=
  match lr.res with
  | .error e => ⟨lr.master, lr.executed, .error e, none⟩
  | .ok _ =>
    match analyze sq lr.acc with
    | .error e => ⟨lr.master, lr.executed, .error e, none⟩
    | .ok _ =>
      match analyze_times_from_master (lr.master.getD []) with
      | .error e => ⟨lr.master, lr.executed, .error e, none⟩
      | .ok _ => ⟨lr.master, lr.executed, .ok 0, none⟩

/-- `main` (`run.py` lines 191–308): argument validation (exit code 2,
message on stderr, before anything runs), then the run loop, then the
final analytics; returns 0 when everything succeeded. -/
def pymain (pf : PyFloat) (sq : ℚ → ℚ) (exeExists cfgExists : Bool)
    (runs : Int) (outs : ℕ → RunOutcome) (master0 : Option Master) :
    MainResult :=
  if !exeExists then ⟨master0, 0, .ok 2, some "ERROR: exe not found"⟩
  else if !cfgExists then ⟨master0, 0, .ok 2, some "ERROR: config not found"⟩
  else if runs ≤ 0 then ⟨master0, 0, .ok 2, some "ERROR: --runs must be > 0"⟩
  else finishMain sq (mainLoop pf outs runs.toNat 0 master0 [])

/-- The master content produced by runs `rid, rid+1, …` with the given
per-run `(fitness_values, eval_time_ms)` data. -/
def blocksJoin (rid : ℕ) : List (List ℚ × ℚ) → Master
  | [] => []
  | (vs, et) :: rest => dataRows rid vs et ++ blocksJoin (rid + 1) rest

/-- Folding `append_run_to_master` over successive runs. -/
def buildFrom (m : Option Master) (rid : ℕ) : List (List ℚ × ℚ) → Option Master
  | [] => m
  | (vs, et) :: rest =>
    buildFrom (some (append_run_to_master m rid vs et)) (rid + 1) rest

/-! ## Concrete instantiations used by counterexamples and witnesses -/

/-- A concrete instantiation of the abstract `float(...)` parser: accepts
nonempty digit strings. -/
def pfDigits : PyFloat := fun s =>
  if s ≠ [] ∧ s.all Char.isDigit then
    .ok ((s.foldl (fun n c => 10 * n + (c.toNat - 48)) 0 : ℕ) : ℚ)
  else .error "ValueError: could not convert string to float"

/-- A per-run CSV with one usable data row (fitness 3, eval time 99) and
one row with a blank fitness cell. -/
def demoCsv : CsvFile :=
  { headers := ["experiment".toList, "fitness".toList, "eval_time_ms".toList]
    rows := [["0".toList, "3".toList, "99".toList],
             ["1".toList, "".toList, "99".toList]] }

/-- A successful run producing `demoCsv`. -/
def demoRun : RunOutcome := ⟨false, 0, some demoCsv⟩

/-- A master CSV left over from an earlier invocation that did two runs
(run 0 took 10 ms, run 1 took 20 ms). -/
def staleMaster : Master :=
  [MasterRow.header, MasterRow.data 0 0 1 10, MasterRow.data 1 0 2 20]

-- concrete sanity checks of the CSV/main embedding
example : read_fitness_csv pfDigits demoCsv = .ok ([3], 99) := by decide
example : (pymain pfDigits id true true 1 (fun _ => demoRun) none).exit
    = .ok 0 := by decide
example : (analyze_times_from_master
      ((pymain pfDigits id true true 1 (fun _ => demoRun)
        (some staleMaster)).master.getD [])).map TimeStats.runs
    = .ok 2 := by decide
example : (pymain pfDigits id true true 1 (fun _ => demoRun)
      (some staleMaster)).executed = 1 := by decide
example : pymain pfDigits id true false 1 (fun _ => demoRun) none
    = ⟨none, 0, .ok 2, some "ERROR: config not found"⟩ := by decide

/-! ## Lemmas about the string primitives -/

theorem dropWhile_append_mid {p : Char → Bool} {y : Char} (hy : p y = false)
    (xs ys : PyStr) :
    (xs ++ y :: ys).dropWhile p = xs.dropWhile p ++ y :: ys := by
  induction xs with
  | nil => simp [List.dropWhile_cons, hy]
  | cons x t ih =>
    by_cases hx : p x
    · simpa [List.dropWhile_cons, hx] using ih
    · simp [List.dropWhile_cons, hx]

theorem takeWhile_append_mid {p : Char → Bool} {y : Char}
    (hxs : ∀ c ∈ xs, p c = true) (hy : p y = false) (ys : PyStr) :
    (xs ++ y :: ys).takeWhile p = xs := by
  induction xs with
  | nil => simp [List.takeWhile_cons, hy]
  | cons x t ih =>
    have hx : p x = true := hxs x (List.mem_cons_self x t)
    simp only [List.cons_append, List.takeWhile_cons_of_pos hx]
    rw [ih (fun c hc => hxs c (List.mem_cons_of_mem x hc))]

theorem lstrip_cons_of_neg {c : Char} (h : isSpace c = false) (t : PyStr) :
    lstrip (c :: t) = c :: t := by
  simp [lstrip, List.dropWhile_cons, h]

theorem lstrip_idem (s : PyStr) : lstrip (lstrip s) = lstrip s :=
  List.dropWhile_idempotent _ _

theorem not_space_of_lstrip_cons {c : Char} {t : PyStr}
    (h : lstrip (c :: t) = c :: t) : isSpace c = false := by
  cases hc : isSpace c
  · rfl
  · exfalso
    rw [lstrip, List.dropWhile_cons, if_pos hc] at h
    have h1 : (List.dropWhile isSpace t).length ≤ t.length :=
      (List.dropWhile_sublist isSpace).length_le
    have h2 := congrArg List.length h
    simp only [List.length_cons] at h2
    omega

theorem rstrip_append_mid {c : Char} (hc : isSpace c = false) (a b : PyStr) :
    rstrip (a ++ c :: b) = a ++ c :: rstrip b := by
  unfold rstrip
  rw [List.reverse_append, List.reverse_cons, List.append_assoc,
    List.singleton_append, dropWhile_append_mid hc, List.reverse_append,
    List.reverse_cons, List.reverse_reverse, List.append_assoc,
    List.singleton_append]

theorem rstrip_cons_of_neg {c : Char} (hc : isSpace c = false) (t : PyStr) :
    rstrip (c :: t) = c :: rstrip t := rstrip_append_mid hc [] t

theorem rstrip_idem (s : PyStr) : rstrip (rstrip s) = rstrip s := by
  unfold rstrip
  rw [List.reverse_reverse, List.dropWhile_idempotent]

theorem lstrip_rstrip {s : PyStr} (h : lstrip s = s) :
    lstrip (rstrip s) = rstrip s := by
  cases s with
  | nil => rfl
  | cons c t =>
    have hc := not_space_of_lstrip_cons h
    rw [rstrip_cons_of_neg hc, lstrip_cons_of_neg hc]

theorem lstrip_pyStrip (s : PyStr) : lstrip (pyStrip s) = pyStrip s :=
  lstrip_rstrip (lstrip_idem s)

theorem pyStrip_idem (s : PyStr) : pyStrip (pyStrip s) = pyStrip s := by
  show rstrip (lstrip (pyStrip s)) = pyStrip s
  rw [lstrip_pyStrip]
  exact rstrip_idem (lstrip s)

theorem mem_of_mem_lstrip {c : Char} {s : PyStr} (h : c ∈ lstrip s) : c ∈ s :=
  List.Sublist.mem h (List.dropWhile_sublist isSpace)

theorem mem_of_mem_rstrip {c : Char} {s : PyStr} (h : c ∈ rstrip s) : c ∈ s := by
  unfold rstrip at h
  rw [List.mem_reverse] at h
  exact List.mem_reverse.mp (List.Sublist.mem h (List.dropWhile_sublist isSpace))

theorem mem_of_mem_pyStrip {c : Char} {s : PyStr} (h : c ∈ pyStrip s) : c ∈ s :=
  mem_of_mem_lstrip (mem_of_mem_rstrip h)

theorem ne_eq_of_mem_keyOf {c : Char} {s : PyStr} (h : c ∈ keyOf s) : c ≠ '=' := by
  have := List.mem_takeWhile_imp h
  simpa using this

theorem keyOf_append {a : PyStr} (ha : '=' ∉ a) (b : PyStr) :
    keyOf (a ++ '=' :: b) = a := by
  refine takeWhile_append_mid (fun c hc => ?_) (by simp) b
  simp only [decide_eq_true_eq]
  exact fun hce => ha (hce ▸ hc)

theorem keyOf_not_mem (s : PyStr) : '=' ∉ keyOf s :=
  fun h => ne_eq_of_mem_keyOf h rfl

theorem pyStrip_keyline {a : PyStr} (ha : lstrip a = a) (b : PyStr) :
    pyStrip (a ++ '=' :: b) = a ++ '=' :: rstrip b := by
  unfold pyStrip
  have h1 : lstrip (a ++ '=' :: b) = a ++ '=' :: b := by
    cases a with
    | nil => exact lstrip_cons_of_neg (by decide) b
    | cons c t =>
      rw [List.cons_append]
      exact lstrip_cons_of_neg (not_space_of_lstrip_cons ha) _
  rw [h1, rstrip_append_mid (by decide) a b]

/-! ## Lemmas about `set_cfg_value` -/

/-- A line of shape `kt ++ "=" ++ v`, with `kt` stripped, `'='`-free, not
starting with `'#'`, and lowering to `klow`, is itself a matching line
and is a fixed point of the rewrite. -/
theorem keyline_matches {klow kt : PyStr} (v : PyStr)
    (hfix : pyStrip kt = kt) (hne : '=' ∉ kt)
    (hhead : kt.headD '=' ≠ '#') (hk : pyLower kt = klow) :
    lineMatches klow (kt ++ '=' :: v) ∧
      rewriteLine klow v (kt ++ '=' :: v) = kt ++ '=' :: v := by
  have hl : lstrip kt = kt := by
    conv_lhs => rw [← hfix]
    rw [lstrip_pyStrip, hfix]
  have hstrip : pyStrip (kt ++ '=' :: v) = kt ++ '=' :: rstrip v :=
    pyStrip_keyline hl v
  have hkey : keyOf (pyStrip (kt ++ '=' :: v)) = kt := by
    rw [hstrip]
    exact keyOf_append hne (rstrip v)
  have hskip : ¬ skipLine (pyStrip (kt ++ '=' :: v)) := by
    rw [hstrip]
    rintro (h | h | h)
    · cases kt <;> simp at h
    · unfold startsHash at h
      cases kt with
      | nil => simp at h
      | cons c t => exact hhead (by simpa using h)
    · exact h (by simp)
  have hmt : lineMatches klow (kt ++ '=' :: v) := by
    refine ⟨hskip, ?_⟩
    rw [hkey, hfix, hk]
  refine ⟨hmt, ?_⟩
  unfold rewriteLine
  rw [if_pos hmt, hkey, hfix]

/-- The rewrite of a matching line still matches and is a fixed point of
further rewriting. -/
theorem rewriteLine_fixed {klow v line : PyStr} (h : lineMatches klow line) :
    lineMatches klow (rewriteLine klow v line) ∧
      rewriteLine klow v (rewriteLine klow v line) = rewriteLine klow v line := by
  obtain ⟨hns, hk⟩ := h
  have hfix : pyStrip (pyStrip (keyOf (pyStrip line)))
      = pyStrip (keyOf (pyStrip line)) := pyStrip_idem _
  have hne : '=' ∉ pyStrip (keyOf (pyStrip line)) :=
    fun hc => keyOf_not_mem (pyStrip line) (mem_of_mem_pyStrip hc)
  have hhead : (pyStrip (keyOf (pyStrip line))).headD '=' ≠ '#' := by
    have hs : pyStrip line ≠ [] := fun hnil => hns (Or.inl hnil)
    obtain ⟨c₀, t₀, he⟩ := List.exists_cons_of_ne_nil hs
    have hl : lstrip (pyStrip line) = pyStrip line := lstrip_pyStrip line
    rw [he] at hl
    have hsp : isSpace c₀ = false := not_space_of_lstrip_cons hl
    have hc₀ : c₀ ≠ '#' := by
      intro hceq
      exact hns (Or.inr (Or.inl (by rw [he]; simp [startsHash, hceq])))
    by_cases hce : c₀ = '='
    · rw [he, keyOf, List.takeWhile_cons_of_neg (by simp [hce])]
      decide
    · rw [he, keyOf, List.takeWhile_cons_of_pos (by simpa using hce)]
      show ((rstrip (lstrip _)).headD '=') ≠ '#'
      rw [lstrip_cons_of_neg hsp, rstrip_cons_of_neg hsp]
      simpa using hc₀
  have base := keyline_matches v hfix hne hhead hk
  have hrw : rewriteLine klow v line = pyStrip (keyOf (pyStrip line)) ++ '=' :: v := by
    unfold rewriteLine
    rw [if_pos ⟨hns, hk⟩]
  rw [hrw]
  exact base

theorem rewriteLine_of_not {klow v line : PyStr} (h : ¬ lineMatches klow line) :
    rewriteLine klow v line = line := by
  unfold rewriteLine
  rw [if_neg h]

/-- One loop iteration of `set_cfg_value` appends the rewritten line and
ors in whether the line matched. -/
theorem set_cfg_step_eq (klow v : PyStr) (out : List PyStr) (b : Bool)
    (line : PyStr) :
    set_cfg_step klow v (out, b) line
      = (out ++ [rewriteLine klow v line],
         b || decide (lineMatches klow line)) := by
  by_cases hs : skipLine (pyStrip line)
  · have hm : ¬ lineMatches klow line := fun hmm => hmm.1 hs
    rw [rewriteLine_of_not hm]
    simp only [set_cfg_step, if_pos hs]
    simp [hm]
  · by_cases hkk : pyLower (pyStrip (keyOf (pyStrip line))) = klow
    · have hm : lineMatches klow line := ⟨hs, hkk⟩
      simp only [set_cfg_step, rewriteLine, if_neg hs, if_pos hkk, if_pos hm]
      simp [hm]
    · have hm : ¬ lineMatches klow line := fun hmm => hkk hmm.2
      simp only [set_cfg_step, rewriteLine, if_neg hs, if_neg hkk, if_neg hm]
      simp [hm]

theorem foldl_set_cfg (klow v : PyStr) (ls : List PyStr) :
    ∀ out b, ls.foldl (set_cfg_step klow v) (out, b)
      = (out ++ ls.map (rewriteLine klow v),
         b || ls.any (fun l => decide (lineMatches klow l))) := by
  induction ls with
  | nil => intro out b; simp
  | cons l t ih =>
    intro out b
    rw [List.foldl_cons, set_cfg_step_eq, ih]
    simp [Bool.or_assoc]

/-- Characterization of `set_cfg_value`: every line is rewritten by
`rewriteLine`, and `key=value` is appended exactly when no line matched. -/
theorem set_cfg_value_eq (lines : List PyStr) (key v : PyStr) :
    set_cfg_value lines key v
      = lines.map (rewriteLine (pyLower key) v)
        ++ (if ∃ l ∈ lines, lineMatches (pyLower key) l then []
            else [key ++ '=' :: v]) := by
  by_cases h : ∃ l ∈ lines, lineMatches (pyLower key) l
  · have hb : lines.any (fun l => decide (lineMatches (pyLower key) l)) = true := by
      rw [List.any_eq_true]
      obtain ⟨l, hl, hm⟩ := h
      exact ⟨l, hl, by simpa using hm⟩
    simp [set_cfg_value, foldl_set_cfg, hb, h]
  · have hb : lines.any (fun l => decide (lineMatches (pyLower key) l)) = false := by
      rw [List.any_eq_false]
      intro l hl
      simp only [decide_eq_true_eq]
      exact fun hm => h ⟨l, hl, hm⟩
    simp [set_cfg_value, foldl_set_cfg, hb, h]

theorem headD_ne_hash_of_not_startsHash {key : PyStr} (h : ¬ startsHash key) :
    key.headD '=' ≠ '#' := by
  cases key with
  | nil => decide
  | cons c t => simpa [startsHash] using h

/-! ## Claim C1 -/

/-- C1 counterexample: with two lines both matching the key `a`
case-insensitively, `set_cfg_value` rewrites BOTH lines, not only the
first, so the claimed "first match wins" output is not produced. -/
theorem c1_counterexample :
    set_cfg_value ["A=1".toList, "a=2".toList] "a".toList "9".toList
        = ["A=9".toList, "a=9".toList] ∧
      ["A=9".toList, "a=9".toList] ≠ ["A=9".toList, "a=2".toList] := by
  constructor
  · decide
  · decide

/-- C1 (amended): `set_cfg_value` matches the key case-insensitively and
rewrites EVERY matching `key=value` line (each to `K=value` with `K` the
line's own stripped key), and appends a new `key=value` line at the end
exactly when no line matches the key. -/
theorem c1_set_cfg_value_characterization (lines : List PyStr)
    (key value : PyStr) :
    set_cfg_value lines key value
      = lines.map (rewriteLine (pyLower key) value)
        ++ (if ∃ l ∈ lines, lineMatches (pyLower key) l then []
            else [key ++ '=' :: value]) :=
  set_cfg_value_eq lines key value

/-! ## Claim C4 -/

/-- C4 counterexample: for the key `"#a"` (whose appended line re-parses
as a comment) applying `set_cfg_value` twice appends the line twice, so
idempotence fails for some key/value pairs. -/
theorem c4_counterexample :
    set_cfg_value (set_cfg_value [] "#a".toList "1".toList)
        "#a".toList "1".toList
      ≠ set_cfg_value [] "#a".toList "1".toList := by
  decide

/-- C4 (amended): applying `set_cfg_value` twice with the same key and
value equals applying it once, provided the key is stripped of surrounding
whitespace, does not start with `#` and contains no `=` (for other keys
the appended line may fail to re-match, as the counterexample shows); and
unconditionally, when the key already occurs in the lines, the output has
the same line count as the input and every comment line of the input is
unchanged and in its original position in the output. -/
theorem c4_idempotent_and_preserving :
    (∀ (lines : List PyStr) (key value : PyStr),
        pyStrip key = key → ¬ startsHash key → '=' ∉ key →
        set_cfg_value (set_cfg_value lines key value) key value
          = set_cfg_value lines key value) ∧
    (∀ (lines : List PyStr) (key value : PyStr),
        (∃ l ∈ lines, lineMatches (pyLower key) l) →
        (set_cfg_value lines key value).length = lines.length ∧
        ∀ i (h : i < lines.length), startsHash (pyStrip lines[i]) →
          (set_cfg_value lines key value)[i]? = some lines[i]) := by
  constructor
  · intro lines key v hfix hhash hne
    have hhead : key.headD '=' ≠ '#' := headD_ne_hash_of_not_startsHash hhash
    by_cases h : ∃ l ∈ lines, lineMatches (pyLower key) l
    · rw [set_cfg_value_eq lines key v, if_pos h, List.append_nil]
      have h2 : ∃ l ∈ lines.map (rewriteLine (pyLower key) v),
          lineMatches (pyLower key) l := by
        obtain ⟨l, hl, hm⟩ := h
        exact ⟨rewriteLine (pyLower key) v l, List.mem_map_of_mem _ hl,
          (rewriteLine_fixed hm).1⟩
      rw [set_cfg_value_eq, if_pos h2, List.append_nil, List.map_map]
      refine List.map_congr_left (fun a _ => ?_)
      by_cases hm : lineMatches (pyLower key) a
      · exact (rewriteLine_fixed hm).2
      · simp only [Function.comp_apply, rewriteLine_of_not hm]
    · rw [set_cfg_value_eq lines key v, if_neg h]
      have hid : lines.map (rewriteLine (pyLower key) v) = lines := by
        refine List.map_congr_left (fun a ha => ?_) |>.trans (List.map_id lines)
        exact rewriteLine_of_not (fun hm => h ⟨a, ha, hm⟩)
      rw [hid]
      have hL := @keyline_matches (pyLower key) key v hfix hne hhead rfl
      have h2 : ∃ l ∈ lines ++ [key ++ '=' :: v],
          lineMatches (pyLower key) l :=
        ⟨key ++ '=' :: v, by simp, hL.1⟩
      rw [set_cfg_value_eq, if_pos h2, List.append_nil, List.map_append,
        hid, List.map_singleton, hL.2]
  · intro lines key v h
    rw [set_cfg_value_eq, if_pos h, List.append_nil]
    refine ⟨List.length_map lines _, fun i hi hcomment => ?_⟩
    rw [List.getElem?_map, List.getElem?_eq_getElem hi]
    have hm : ¬ lineMatches (pyLower key) lines[i] :=
      fun hmm => hmm.1 (Or.inr (Or.inl hcomment))
    simp [rewriteLine_of_not hm]

/-- C4 witness: the amended idempotence and the preservation part hold at
a concrete key occurring in concrete lines. -/
theorem c4_witness :
    set_cfg_value (set_cfg_value ["# c".toList, "seed=1".toList]
        "seed".toList "2".toList) "seed".toList "2".toList
      = set_cfg_value ["# c".toList, "seed=1".toList] "seed".toList "2".toList ∧
    (set_cfg_value ["# c".toList, "seed=1".toList] "seed".toList
        "2".toList).length = 2 ∧
    (set_cfg_value ["# c".toList, "seed=1".toList] "seed".toList
        "2".toList)[0]? = some "# c".toList := by
  refine ⟨c4_idempotent_and_preserving.1 _ _ _ (by decide) (by decide)
      (by decide), ?_, ?_⟩
  · exact (c4_idempotent_and_preserving.2 ["# c".toList, "seed=1".toList]
      "seed".toList "2".toList ⟨"seed=1".toList, by decide, by decide⟩).1
  · exact (c4_idempotent_and_preserving.2 ["# c".toList, "seed=1".toList]
      "seed".toList "2".toList ⟨"seed=1".toList, by decide, by decide⟩).2
      0 (by decide) (by decide)

/-! ## Claim C10: `write_cfg` / `parse_cfg` round trip -/

theorem univAux_id : ∀ (s : PyStr), '\r' ∉ s → univAux s false = s := by
  intro s
  induction s with
  | nil => intro _; rfl
  | cons c t ih =>
    intro h
    have hc : ¬ (c = '\r') := fun he => h (he ▸ List.mem_cons_self c t)
    have ht := ih (fun hm => h (List.mem_cons_of_mem c hm))
    by_cases hn : c = '\n'
    · subst hn
      simp [univAux, hc, ht]
    · simp [univAux, hc, hn, ht]

theorem univNewlines_id (s : PyStr) (h : '\r' ∉ s) : univNewlines s = s :=
  univAux_id s h

theorem mem_joinNL : ∀ (lines : List PyStr) (c : Char), c ∈ joinNL lines →
    (∃ l ∈ lines, c ∈ l) ∨ c = '\n' := by
  intro lines
  induction lines with
  | nil => intro c h; exact absurd h (List.not_mem_nil c)
  | cons x t ih =>
    intro c h
    cases t with
    | nil => exact Or.inl ⟨x, List.mem_cons_self x [], h⟩
    | cons y r =>
      simp only [joinNL] at h
      rcases List.mem_append.mp h with h1 | h1
      · exact Or.inl ⟨x, List.mem_cons_self _ _, h1⟩
      · rcases List.mem_cons.mp h1 with h2 | h2
        · exact Or.inr h2
        · rcases ih c h2 with ⟨l, hl, hcl⟩ | h3
          · exact Or.inl ⟨l, List.mem_cons_of_mem x hl, hcl⟩
          · exact Or.inr h3

/-- Lines free of line-boundary characters make the written file free of
carriage returns, so the text-mode translation is the identity on it. -/
theorem no_cr_write_cfg {lines : List PyStr}
    (hn : ∀ l ∈ lines, ∀ c ∈ l, isLineBreak c = false) :
    '\r' ∉ write_cfg lines := by
  intro h
  unfold write_cfg at h
  rcases List.mem_append.mp h with h1 | h1
  · rcases mem_joinNL lines '\r' h1 with ⟨l, hl, hcl⟩ | h2
    · exact absurd (hn l hl '\r' hcl) (by decide)
    · exact absurd h2 (by decide)
  · rw [List.mem_singleton] at h1
    exact absurd h1 (by decide)

theorem splitlinesAux_break {x : PyStr}
    (hx : ∀ c ∈ x, isLineBreak c = false) (rest cur : PyStr) :
    splitlinesAux (x ++ '\n' :: rest) cur false
      = (cur ++ x) :: splitlinesAux rest [] false := by
  induction x generalizing cur with
  | nil =>
    rw [List.nil_append]
    simp only [splitlinesAux, if_neg (by decide : ¬ (('\n' : Char) = '\r')),
      if_pos (rfl : ('\n' : Char) = '\n'), Bool.false_eq_true, if_false,
      List.append_nil]
    rw [if_pos trivial]
  | cons c t ih =>
    have hc : isLineBreak c = false := hx c (List.mem_cons_self c t)
    have hcr : ¬ (c = '\r') := by
      intro he
      subst he
      exact absurd hc (by decide)
    have hcn : ¬ (c = '\n') := by
      intro he
      subst he
      exact absurd hc (by decide)
    rw [List.cons_append]
    simp only [splitlinesAux, if_neg hcr, if_neg hcn, hc, Bool.false_eq_true,
      if_false, List.append_eq]
    rw [ih (fun d hd => hx d (List.mem_cons_of_mem c hd)) (cur ++ [c])]
    simp

theorem splitlines_write_cfg (lines : List PyStr) (h : lines ≠ [])
    (hn : ∀ l ∈ lines, ∀ c ∈ l, isLineBreak c = false) :
    splitlines (write_cfg lines) = lines := by
  induction lines with
  | nil => exact absurd rfl h
  | cons x t ih =>
    have hx : ∀ c ∈ x, isLineBreak c = false := hn x (List.mem_cons_self x t)
    cases t with
    | nil =>
      show splitlinesAux (x ++ ['\n']) [] false = [x]
      rw [splitlinesAux_break hx]
      rfl
    | cons y r =>
      have hw : write_cfg (x :: y :: r) = x ++ '\n' :: write_cfg (y :: r) := by
        show joinNL (x :: y :: r) ++ ['\n'] = x ++ '\n' :: (joinNL (y :: r) ++ ['\n'])
        rw [joinNL, List.append_assoc, List.cons_append]
      show splitlinesAux (write_cfg (x :: y :: r)) [] false = x :: y :: r
      rw [hw, splitlinesAux_break hx]
      rw [List.nil_append]
      have := ih (List.cons_ne_nil y r)
        (fun l hl => hn l (List.mem_cons_of_mem x hl))
      exact congrArg (x :: ·) this

/-- C10 counterexample: the line `"a\rb"` contains no `'\n'`, yet the
round trip is not the identity on `["a\rb"]` — the text-mode read
translates the `'\r'` to `'\n'` and `splitlines` splits there, producing
`["a", "b"]`. -/
theorem c10_counterexample :
    ('\n' ∉ ['a', '\r', 'b']) ∧
    parse_cfg (write_cfg [['a', '\r', 'b']]) = [['a'], ['b']] ∧
    ([['a'], ['b']] : List PyStr) ≠ [['a', '\r', 'b']] :=
  ⟨by decide, by decide, by decide⟩

/-- C10 (amended): writing config lines with `write_cfg` and reading them
back with `parse_cfg` is the identity for every non-empty list of lines
none of which contains a line-boundary character (`\n`, `\r`, `\v`, `\f`,
0x1c–0x1e, 0x85, U+2028, U+2029 — excluding only `'\n'` is not enough, as
the counterexample shows); for the empty list the round trip instead
yields a single empty line, so it is not the identity there. -/
theorem c10_roundtrip :
    (∀ lines : List PyStr, lines ≠ [] →
       (∀ l ∈ lines, ∀ c ∈ l, isLineBreak c = false) →
       parse_cfg (write_cfg lines) = lines) ∧
    parse_cfg (write_cfg []) = [[]] ∧ ([[]] : List PyStr) ≠ [] := by
  refine ⟨fun lines h hn => ?_, by decide, by decide⟩
  show splitlines (univNewlines (write_cfg lines)) = lines
  rw [univNewlines_id _ (no_cr_write_cfg hn)]
  exact splitlines_write_cfg lines h hn

/-- C10 witness: the round trip at concrete non-empty input. -/
theorem c10_witness :
    parse_cfg (write_cfg ["m=5".toList, "".toList, "# x".toList])
      = ["m=5".toList, "".toList, "# x".toList] :=
  c10_roundtrip.1 ["m=5".toList, "".toList, "# x".toList] (by decide) (by decide)

/-! ## Claim C3: `analyze` aggregate identities -/

/-- C3: for every non-empty input and every square-root instantiation,
`analyze` succeeds and its result satisfies `range = max − min`,
`count = length of the input`, and `stdev = 0.0` for fewer than two
values. -/
theorem c3_analyze (sq : ℚ → ℚ) (vs : List ℚ) (h : vs ≠ []) :
    ∃ s, analyze sq vs = .ok s ∧ s.range = s.max - s.min ∧
      s.count = (vs.length : ℚ) ∧ (vs.length < 2 → s.stdev = 0) := by
  obtain ⟨v, rest, rfl⟩ := List.exists_cons_of_ne_nil h
  refine ⟨_, rfl, rfl, rfl, fun hlen => ?_⟩
  show (if 2 ≤ (v :: rest).length then sq (sampVar (v :: rest)) else 0) = 0
  rw [if_neg (by omega)]

/-- C3 witness: at the one-element list `[3]` the stdev entry is `0`. -/
theorem c3_witness :
    ∃ s, analyze id [(3 : ℚ)] = .ok s ∧ s.range = s.max - s.min ∧
      s.count = ((1 : ℕ) : ℚ) ∧ ((1 : ℕ) < 2 → s.stdev = 0) :=
  c3_analyze id [3] (by decide)

/-! ## Lemmas about `read_fitness_csv` -/

theorem not_skip_shape {hs : List PyStr} {row : List PyStr}
    (h : ¬ skipRow hs row) :
    ∃ s, rowGet hs row fitCol = some s ∧ ¬ (pyStrip s = []) := by
  unfold skipRow at h
  cases hg : rowGet hs row fitCol with
  | none => rw [hg] at h; exact absurd trivial h
  | some s => rw [hg] at h; exact ⟨s, rfl, h⟩

/-- Rows skipped by the `continue` guard contribute nothing: `readRows`
only sees the non-skipped rows. -/
theorem readRows_filter (pf : PyFloat) (hs : List PyStr) :
    ∀ (rows : List (List PyStr)) (acc : List ℚ) (st : Option ℚ),
    readRows pf hs rows acc st
      = readRows pf hs (rows.filter (fun r => !decide (skipRow hs r))) acc st := by
  intro rows
  induction rows with
  | nil => intro acc st; rfl
  | cons row rest ih =>
    intro acc st
    by_cases hskip : skipRow hs row
    · rw [List.filter_cons_of_neg (by simpa using hskip)]
      simp only [readRows]
      rw [if_pos hskip]
      exact ih acc st
    · rw [List.filter_cons_of_pos (by simpa using hskip)]
      cases hg : rowGet hs row fitCol with
      | none =>
        simp only [readRows, if_neg hskip, hg]
        exact ih acc st
      | some s =>
        cases hpf : pf s with
        | error e => simp only [readRows, if_neg hskip, hg, hpf]
        | ok fv =>
          cases st with
          | some t =>
            simp only [readRows, if_neg hskip, hg, hpf]
            exact ih _ _
          | none =>
            cases hge : rowGet hs row evalCol with
            | none => simp only [readRows, if_neg hskip, hg, hpf, hge]
            | some ts =>
              cases hpt : pf ts with
              | error e => simp only [readRows, if_neg hskip, hg, hpf, hge, hpt]
              | ok tv =>
                simp only [readRows, if_neg hskip, hg, hpf, hge, hpt]
                exact ih _ _

/-- `readRows` only ever appends to its accumulator. -/
theorem readRows_ok_extend (pf : PyFloat) (hs : List PyStr) :
    ∀ (rows : List (List PyStr)) (acc : List ℚ) (st : Option ℚ) vals te,
    readRows pf hs rows acc st = .ok (vals, te) → ∃ ext, vals = acc ++ ext := by
  intro rows
  induction rows with
  | nil =>
    intro acc st vals te h
    simp only [readRows, Except.ok.injEq, Prod.mk.injEq] at h
    exact ⟨[], by simp [← h.1]⟩
  | cons row rest ih =>
    intro acc st vals te h
    by_cases hskip : skipRow hs row
    · simp only [readRows, if_pos hskip] at h
      exact ih acc st vals te h
    · cases hg : rowGet hs row fitCol with
      | none =>
        simp only [readRows, if_neg hskip, hg] at h
        exact ih acc st vals te h
      | some s =>
        cases hpf : pf s with
        | error e =>
          simp only [readRows, if_neg hskip, hg, hpf] at h
          exact absurd h (by simp)
        | ok fv =>
          cases st with
          | some t =>
            simp only [readRows, if_neg hskip, hg, hpf] at h
            obtain ⟨ext, hext⟩ := ih _ _ _ _ h
            exact ⟨fv :: ext, by simp [hext]⟩
          | none =>
            cases hge : rowGet hs row evalCol with
            | none =>
              simp only [readRows, if_neg hskip, hg, hpf, hge] at h
              exact absurd h (by simp)
            | some ts =>
              cases hpt : pf ts with
              | error e =>
                simp only [readRows, if_neg hskip, hg, hpf, hge, hpt] at h
                exact absurd h (by simp)
              | ok tv =>
                simp only [readRows, if_neg hskip, hg, hpf, hge, hpt] at h
                obtain ⟨ext, hext⟩ := ih _ _ _ _ h
                exact ⟨fv :: ext, by simp [hext]⟩

/-- Once `eval_time_ms` has been grabbed it is never replaced. -/
theorem readRows_keeps_et (pf : PyFloat) (hs : List PyStr) :
    ∀ (rows : List (List PyStr)) (acc : List ℚ) (t : ℚ) vals te,
    readRows pf hs rows acc (some t) = .ok (vals, te) → te = some t := by
  intro rows
  induction rows with
  | nil =>
    intro acc t vals te h
    simp only [readRows, Except.ok.injEq, Prod.mk.injEq] at h
    exact h.2.symm
  | cons row rest ih =>
    intro acc t vals te h
    by_cases hskip : skipRow hs row
    · simp only [readRows, if_pos hskip] at h
      exact ih acc t vals te h
    · cases hg : rowGet hs row fitCol with
      | none =>
        simp only [readRows, if_neg hskip, hg] at h
        exact ih acc t vals te h
      | some s =>
        cases hpf : pf s with
        | error e =>
          simp only [readRows, if_neg hskip, hg, hpf] at h
          exact absurd h (by simp)
        | ok fv =>
          simp only [readRows, if_neg hskip, hg, hpf] at h
          exact ih _ t vals te h

/-- On an all-skipped suffix `readRows` returns its state unchanged. -/
theorem readRows_all_skip (pf : PyFloat) (hs : List PyStr) :
    ∀ (rows : List (List PyStr)) (acc : List ℚ) (st : Option ℚ),
    (∀ r ∈ rows, skipRow hs r) → readRows pf hs rows acc st = .ok (acc, st) := by
  intro rows
  induction rows with
  | nil => intro acc st _; rfl
  | cons row rest ih =>
    intro acc st h
    simp only [readRows]
    rw [if_pos (h row (List.mem_cons_self row rest))]
    exact ih acc st (fun r hr => h r (List.mem_cons_of_mem row hr))

/-- When every row is usable, each row contributes exactly one fitness
value. -/
theorem readRows_length (pf : PyFloat) (hs : List PyStr) :
    ∀ (rows : List (List PyStr)) (acc : List ℚ) (st : Option ℚ) vals te,
    (∀ r ∈ rows, ¬ skipRow hs r) →
    readRows pf hs rows acc st = .ok (vals, te) →
    vals.length = acc.length + rows.length := by
  intro rows
  induction rows with
  | nil =>
    intro acc st vals te _ h
    simp only [readRows, Except.ok.injEq, Prod.mk.injEq] at h
    simp [← h.1]
  | cons row rest ih =>
    intro acc st vals te hns h
    have hskip := hns row (List.mem_cons_self row rest)
    obtain ⟨s, hg, _⟩ := not_skip_shape hskip
    have hrest : ∀ r ∈ rest, ¬ skipRow hs r :=
      fun r hr => hns r (List.mem_cons_of_mem row hr)
    cases hpf : pf s with
    | error e =>
      simp only [readRows, if_neg hskip, hg, hpf] at h
      exact absurd h (by simp)
    | ok fv =>
      cases st with
      | some t =>
        simp only [readRows, if_neg hskip, hg, hpf] at h
        have := ih _ _ _ _ hrest h
        simp only [List.length_append, List.length_singleton] at this
        simp only [this, List.length_cons]
        omega
      | none =>
        cases hge : rowGet hs row evalCol with
        | none =>
          simp only [readRows, if_neg hskip, hg, hpf, hge] at h
          exact absurd h (by simp)
        | some ts =>
          cases hpt : pf ts with
          | error e =>
            simp only [readRows, if_neg hskip, hg, hpf, hge, hpt] at h
            exact absurd h (by simp)
          | ok tv =>
            simp only [readRows, if_neg hskip, hg, hpf, hge, hpt] at h
            have := ih _ _ _ _ hrest h
            simp only [List.length_append, List.length_singleton] at this
            simp only [this, List.length_cons]
            omega

/-! ## Claim C9 -/

/-- C9: rows whose `fitness` cell is missing or blank are skipped and
contribute neither a fitness nor a timing value (reading only the
non-skipped rows gives the same result); the returned `eval_time_ms` is
the parsed `eval_time_ms` cell of the first non-skipped row; and the
returned fitness list has exactly one element per non-skipped row, hence
can be shorter than the number of data rows in the file. -/
theorem c9_blank_rows_skipped (pf : PyFloat) (f : CsvFile) (vals : List ℚ)
    (et : ℚ) (r₀ : List PyStr) (rest : List (List PyStr))
    (h1 : read_fitness_csv pf f = .ok (vals, et))
    (h2 : f.rows.filter (fun r => !decide (skipRow f.headers r)) = r₀ :: rest) :
    read_fitness_csv pf
        ⟨f.headers, f.rows.filter (fun r => !decide (skipRow f.headers r))⟩
      = .ok (vals, et) ∧
    (∃ s, rowGet f.headers r₀ evalCol = some s ∧ pf s = .ok et) ∧
    vals.length = (r₀ :: rest).length := by
  have hfit : fitCol ∈ f.headers := by
    by_contra hf
    simp only [read_fitness_csv, if_neg hf] at h1
    exact absurd h1 (by simp)
  have heval : evalCol ∈ f.headers := by
    by_contra hf
    simp only [read_fitness_csv, if_pos hfit, if_neg hf] at h1
    exact absurd h1 (by simp)
  have hrr : readRows pf f.headers f.rows [] none = .ok (vals, some et) := by
    have hm := h1
    simp only [read_fitness_csv, if_pos hfit, if_pos heval] at hm
    cases hr : readRows pf f.headers f.rows [] none with
    | error e => simp only [hr] at hm; exact absurd hm (by simp)
    | ok p =>
      obtain ⟨vs, te⟩ := p
      cases te with
      | none => simp only [hr] at hm; exact absurd hm (by simp)
      | some t =>
        simp only [hr, Except.ok.injEq, Prod.mk.injEq] at hm
        rw [hm.1, hm.2]
  have hrr2 : readRows pf f.headers (r₀ :: rest) [] none = .ok (vals, some et) := by
    rw [← h2, ← readRows_filter]
    exact hrr
  have hns : ¬ skipRow f.headers r₀ := by
    have hmem : r₀ ∈ f.rows.filter (fun r => !decide (skipRow f.headers r)) := by
      rw [h2]; exact List.mem_cons_self r₀ rest
    simpa using List.of_mem_filter hmem
  have hall : ∀ r ∈ r₀ :: rest, ¬ skipRow f.headers r := by
    intro r hr
    have hmem : r ∈ f.rows.filter (fun x => !decide (skipRow f.headers x)) :=
      h2 ▸ hr
    simpa using List.of_mem_filter hmem
  refine ⟨?_, ?_, ?_⟩
  · have hrr3 : readRows pf f.headers
        (f.rows.filter (fun r => !decide (skipRow f.headers r))) [] none
        = .ok (vals, some et) := by
      rw [← readRows_filter]; exact hrr
    simp only [read_fitness_csv, if_pos hfit, if_pos heval, hrr3]
  · obtain ⟨s, hg, _⟩ := not_skip_shape hns
    cases hpf : pf s with
    | error e =>
      simp only [readRows, if_neg hns, hg, hpf] at hrr2
      exact absurd hrr2 (by simp)
    | ok fv =>
      cases hge : rowGet f.headers r₀ evalCol with
      | none =>
        simp only [readRows, if_neg hns, hg, hpf, hge] at hrr2
        exact absurd hrr2 (by simp)
      | some ts =>
        cases hpt : pf ts with
        | error e =>
          simp only [readRows, if_neg hns, hg, hpf, hge, hpt] at hrr2
          exact absurd hrr2 (by simp)
        | ok tv =>
          simp only [readRows, if_neg hns, hg, hpf, hge, hpt,
            List.nil_append] at hrr2
          have hkeep := readRows_keeps_et pf f.headers rest [fv] tv vals
            (some et) hrr2
          refine ⟨ts, rfl, ?_⟩
          rw [hpt, (Option.some.inj hkeep).symm]
  · simpa using readRows_length pf f.headers (r₀ :: rest) [] none vals
      (some et) hall hrr2

/-- C9 witness: on the concrete file `demoCsv` (two data rows, one with a
blank fitness cell) the skipped row contributes nothing, the eval time
comes from the first usable row, and only one fitness value is returned
although the file has two data rows. -/
theorem c9_witness :
    read_fitness_csv pfDigits
        ⟨demoCsv.headers,
         demoCsv.rows.filter (fun r => !decide (skipRow demoCsv.headers r))⟩
      = .ok ([3], 99) ∧
    (∃ s, rowGet demoCsv.headers ["0".toList, "3".toList, "99".toList] evalCol
        = some s ∧ pfDigits s = .ok 99) ∧
    ([(3 : ℚ)]).length = ([["0".toList, "3".toList, "99".toList]]).length :=
  c9_blank_rows_skipped pfDigits demoCsv [3] 99
    ["0".toList, "3".toList, "99".toList] [] (by decide) (by decide)

/-! ## Loop lemmas -/

/-- `readRows` starting with no timing value can only deliver one by
putting at least one fitness value into the accumulator. -/
theorem readRows_some_ne_nil (pf : PyFloat) (hs : List PyStr) :
    ∀ (rows : List (List PyStr)) (acc : List ℚ) vals t,
    readRows pf hs rows acc none = .ok (vals, some t) →
    acc = [] → vals ≠ [] := by
  intro rows
  induction rows with
  | nil =>
    intro acc vals t h _
    simp only [readRows, Except.ok.injEq, Prod.mk.injEq] at h
    exact absurd h.2 (by simp)
  | cons row rest ih =>
    intro acc vals t h hacc
    by_cases hskip : skipRow hs row
    · simp only [readRows, if_pos hskip] at h
      exact ih acc vals t h hacc
    · cases hg : rowGet hs row fitCol with
      | none =>
        simp only [readRows, if_neg hskip, hg] at h
        exact ih acc vals t h hacc
      | some s =>
        cases hpf : pf s with
        | error e =>
          simp only [readRows, if_neg hskip, hg, hpf] at h
          exact absurd h (by simp)
        | ok fv =>
          cases hge : rowGet hs row evalCol with
          | none =>
            simp only [readRows, if_neg hskip, hg, hpf, hge] at h
            exact absurd h (by simp)
          | some ts =>
            cases hpt : pf ts with
            | error e =>
              simp only [readRows, if_neg hskip, hg, hpf, hge, hpt] at h
              exact absurd h (by simp)
            | ok tv =>
              simp only [readRows, if_neg hskip, hg, hpf, hge, hpt] at h
              obtain ⟨ext, hext⟩ := readRows_ok_extend pf hs rest _ _ _ _ h
              subst hacc
              simp [hext]

/-- A successful `read_fitness_csv` always returns at least one fitness
value. -/
theorem read_ok_ne_nil {pf : PyFloat} {f : CsvFile} {vals : List ℚ} {et : ℚ}
    (h : read_fitness_csv pf f = .ok (vals, et)) : vals ≠ [] := by
  by_cases hfit : fitCol ∈ f.headers
  · by_cases heval : evalCol ∈ f.headers
    · simp only [read_fitness_csv, if_pos hfit, if_pos heval] at h
      cases hr : readRows pf f.headers f.rows [] none with
      | error e => simp only [hr] at h; exact absurd h (by simp)
      | ok p =>
        obtain ⟨vs, te⟩ := p
        cases te with
        | none => simp only [hr] at h; exact absurd h (by simp)
        | some t =>
          simp only [hr, Except.ok.injEq, Prod.mk.injEq] at h
          rw [← h.1]
          exact readRows_some_ne_nil pf f.headers f.rows [] vs t hr rfl
    · simp only [read_fitness_csv, if_pos hfit, if_neg heval] at h
      exact absurd h (by simp)
  · simp only [read_fitness_csv, if_neg hfit] at h
    exact absurd h (by simp)

/-- A successful `doRun` returns at least one fitness value. -/
theorem doRun_ok_ne_nil {pf : PyFloat} {o : RunOutcome} {vals : List ℚ}
    {et : ℚ} (h : doRun pf o = .ok (vals, et)) : vals ≠ [] := by
  unfold doRun at h
  by_cases ht : o.timedOut
  · rw [if_pos (by simpa using ht)] at h
    exact absurd h (by simp)
  · rw [if_neg (by simpa using ht)] at h
    cases hrp : run_program o.returncode with
    | error e => simp only [hrp] at h; exact absurd h (by simp)
    | ok u =>
      simp only [hrp] at h
      cases hf : o.outFile with
      | none => simp only [hf] at h; exact absurd h (by simp)
      | some f =>
        simp only [hf] at h
        exact read_ok_ne_nil h

/-- The run loop with enough fuel and all runs succeeding. -/
theorem mainLoop_ok (pf : PyFloat) (outs : ℕ → RunOutcome) :
    ∀ (rd : List (List ℚ × ℚ)) (rid : ℕ) (m : Option Master) (acc : List ℚ),
    (∀ i (h : i < rd.length), doRun pf (outs (rid + i)) = .ok rd[i]) →
    mainLoop pf outs rd.length rid m acc
      = ⟨buildFrom m rid rd, acc ++ (rd.map Prod.fst).flatten, rd.length,
         .ok ()⟩ := by
  intro rd
  induction rd with
  | nil => intro rid m acc _; simp [mainLoop, buildFrom]
  | cons p rest ih =>
    intro rid m acc h
    obtain ⟨vs, et⟩ := p
    have h0 : doRun pf (outs rid) = .ok (vs, et) := by simpa using h 0 (by simp)
    have hstep : ∀ i (hi : i < rest.length),
        doRun pf (outs (rid + 1 + i)) = .ok rest[i] := by
      intro i hi
      have hh := h (i + 1) (by simpa using Nat.succ_lt_succ hi)
      have harith : rid + (i + 1) = rid + 1 + i := by omega
      rw [harith] at hh
      simpa using hh
    show mainLoop pf outs (rest.length + 1) rid m acc = _
    simp only [mainLoop, h0]
    rw [ih (rid + 1) (some (append_run_to_master m rid vs et)) (acc ++ vs) hstep]
    simp [buildFrom, List.append_assoc]

/-- The run loop when run number `rd.length` raises: the error propagates
(nothing catches it) and no later run is executed. -/
theorem mainLoop_err (pf : PyFloat) (outs : ℕ → RunOutcome) :
    ∀ (rd : List (List ℚ × ℚ)) (n rid : ℕ) (m : Option Master)
      (acc : List ℚ) (e : String),
    rd.length < n →
    (∀ i (h : i < rd.length), doRun pf (outs (rid + i)) = .ok rd[i]) →
    doRun pf (outs (rid + rd.length)) = .error e →
    mainLoop pf outs n rid m acc
      = ⟨buildFrom m rid rd, acc ++ (rd.map Prod.fst).flatten, rd.length,
         .error e⟩ := by
  intro rd
  induction rd with
  | nil =>
    intro n rid m acc e hlt h he
    obtain ⟨n', rfl⟩ : ∃ n', n = n' + 1 := ⟨n - 1, by omega⟩
    simp only [List.length_nil, Nat.add_zero] at he
    simp only [mainLoop, he]
    simp [buildFrom]
  | cons p rest ih =>
    intro n rid m acc e hlt h he
    obtain ⟨vs, et⟩ := p
    obtain ⟨n', rfl⟩ : ∃ n', n = n' + 1 := ⟨n - 1, by omega⟩
    have h0 : doRun pf (outs rid) = .ok (vs, et) := by simpa using h 0 (by simp)
    have hstep : ∀ i (hi : i < rest.length),
        doRun pf (outs (rid + 1 + i)) = .ok rest[i] := by
      intro i hi
      have hh := h (i + 1) (by simpa using Nat.succ_lt_succ hi)
      have harith : rid + (i + 1) = rid + 1 + i := by omega
      rw [harith] at hh
      simpa using hh
    have he' : doRun pf (outs (rid + 1 + rest.length)) = .error e := by
      have harith : rid + ((vs, et) :: rest).length = rid + 1 + rest.length := by
        simp only [List.length_cons]; omega
      rwa [harith] at he
    have hlt' : rest.length < n' := by
      simp only [List.length_cons] at hlt; omega
    simp only [mainLoop, h0]
    rw [ih n' (rid + 1) (some (append_run_to_master m rid vs et)) (acc ++ vs)
      e hlt' hstep he']
    simp [buildFrom, List.append_assoc]

/-! ## Claim C5 -/

/-- C5: errors are fatal and unrecovered — `read_fitness_csv` raises when
the `fitness` column is absent, when the `eval_time_ms` column is absent,
and when every data row is skipped (no usable data); `run_program` raises
exactly when the exit code is non-zero; and an error raised in run number
`k` aborts the run loop immediately (the loop result is that error and
exactly the `k` earlier runs were executed). -/
theorem c5_errors_fatal :
    (∀ (pf : PyFloat) (f : CsvFile), fitCol ∉ f.headers →
       ∃ e, read_fitness_csv pf f = .error e) ∧
    (∀ (pf : PyFloat) (f : CsvFile), evalCol ∉ f.headers →
       ∃ e, read_fitness_csv pf f = .error e) ∧
    (∀ (pf : PyFloat) (f : CsvFile), (∀ r ∈ f.rows, skipRow f.headers r) →
       ∃ e, read_fitness_csv pf f = .error e) ∧
    (∀ rc : Int, (∃ e, run_program rc = .error e) ↔ rc ≠ 0) ∧
    (∀ (pf : PyFloat) (outs : ℕ → RunOutcome) (rd : List (List ℚ × ℚ))
       (n rid : ℕ) (m : Option Master) (acc : List ℚ) (e : String),
       rd.length < n →
       (∀ i (h : i < rd.length), doRun pf (outs (rid + i)) = .ok rd[i]) →
       doRun pf (outs (rid + rd.length)) = .error e →
       (mainLoop pf outs n rid m acc).res = .error e ∧
       (mainLoop pf outs n rid m acc).executed = rd.length) := by
  refine ⟨?_, ?_, ?_, ?_, ?_⟩
  · intro pf f hf
    exact ⟨"ValueError: Missing fitness column",
      by simp only [read_fitness_csv, if_neg hf]⟩
  · intro pf f hf
    by_cases hfit : fitCol ∈ f.headers
    · exact ⟨"ValueError: Missing eval_time_ms column",
        by simp only [read_fitness_csv, if_pos hfit, if_neg hf]⟩
    · exact ⟨"ValueError: Missing fitness column",
        by simp only [read_fitness_csv, if_neg hfit]⟩
  · intro pf f hall
    by_cases hfit : fitCol ∈ f.headers
    · by_cases heval : evalCol ∈ f.headers
      · refine ⟨"ValueError: No rows found to read eval_time_ms", ?_⟩
        simp only [read_fitness_csv, if_pos hfit, if_pos heval,
          readRows_all_skip pf f.headers f.rows [] none hall]
      · exact ⟨"ValueError: Missing eval_time_ms column",
          by simp only [read_fitness_csv, if_pos hfit, if_neg heval]⟩
    · exact ⟨"ValueError: Missing fitness column",
        by simp only [read_fitness_csv, if_neg hfit]⟩
  · intro rc
    constructor
    · rintro ⟨e, he⟩ hrc
      rw [run_program, if_neg (by simpa using hrc)] at he
      exact absurd he (by simp)
    · intro hrc
      exact ⟨"RuntimeError: Program failed", by rw [run_program, if_pos hrc]⟩
  · intro pf outs rd n rid m acc e hlt h he
    rw [mainLoop_err pf outs rd n rid m acc e hlt h he]
    exact ⟨rfl, rfl⟩

/-- C5 witness: concrete instances — a file without the `fitness` column,
a file whose only row has a blank fitness cell, a failing exit code, and
a loop of two runs whose second run's program exits non-zero, executing
exactly one run. -/
theorem c5_witness :
    (∃ e, read_fitness_csv pfDigits ⟨[], []⟩ = .error e) ∧
    (∃ e, read_fitness_csv pfDigits
        ⟨demoCsv.headers, [["1".toList, "".toList, "99".toList]]⟩
      = .error e) ∧
    ((∃ e, run_program 1 = .error e) ↔ (1 : ℤ) ≠ 0) ∧
    ((mainLoop pfDigits
        (fun i => if i = 0 then demoRun else ⟨false, 1, some demoCsv⟩)
        2 0 none []).res = .error "RuntimeError: Program failed" ∧
     (mainLoop pfDigits
        (fun i => if i = 0 then demoRun else ⟨false, 1, some demoCsv⟩)
        2 0 none []).executed = 1) := by
  refine ⟨c5_errors_fatal.1 pfDigits ⟨[], []⟩ (by decide),
    c5_errors_fatal.2.2.1 pfDigits
      ⟨demoCsv.headers, [["1".toList, "".toList, "99".toList]]⟩ (by decide),
    c5_errors_fatal.2.2.2.1 1, ?_⟩
  exact c5_errors_fatal.2.2.2.2 pfDigits
    (fun i => if i = 0 then demoRun else ⟨false, 1, some demoCsv⟩)
    [([3], 99)] 2 0 none [] "RuntimeError: Program failed"
    (by decide) (by decide) (by decide)

/-! ## Lemmas about the master file -/

theorem dataRows_length (rid : ℕ) (vs : List ℚ) (et : ℚ) :
    (dataRows rid vs et).length = vs.length := by
  simp [dataRows, List.enum_length]

theorem dataRows_all_data (rid : ℕ) (vs : List ℚ) (et : ℚ) :
    ∀ r ∈ dataRows rid vs et, isDataRow r = true := by
  intro r hr
  simp only [dataRows, List.mem_map] at hr
  obtain ⟨p, _, rfl⟩ := hr
  rfl

theorem countData_dataRows (rid : ℕ) (vs : List ℚ) (et : ℚ) :
    countData (dataRows rid vs et) = vs.length := by
  unfold countData
  rw [List.countP_eq_length.mpr (dataRows_all_data rid vs et)]
  exact dataRows_length rid vs et

theorem countHeader_dataRows (rid : ℕ) (vs : List ℚ) (et : ℚ) :
    countHeader (dataRows rid vs et) = 0 := by
  unfold countHeader
  rw [List.countP_eq_zero.mpr]
  intro r hr
  simp [dataRows_all_data rid vs et r hr]

theorem buildFrom_some : ∀ (rd : List (List ℚ × ℚ)) (c : Master) (rid : ℕ),
    buildFrom (some c) rid rd = some (c ++ blocksJoin rid rd) := by
  intro rd
  induction rd with
  | nil => intro c rid; simp [buildFrom, blocksJoin]
  | cons p rest ih =>
    intro c rid
    obtain ⟨vs, et⟩ := p
    show buildFrom (some (append_run_to_master (some c) rid vs et)) (rid + 1) rest
      = some (c ++ blocksJoin rid ((vs, et) :: rest))
    rw [ih]
    simp [append_run_to_master, blocksJoin, List.append_assoc]

theorem buildFrom_none_cons (rid : ℕ) (vs : List ℚ) (et : ℚ)
    (rest : List (List ℚ × ℚ)) :
    buildFrom none rid ((vs, et) :: rest)
      = some (MasterRow.header :: blocksJoin rid ((vs, et) :: rest)) := by
  show buildFrom (some (append_run_to_master none rid vs et)) (rid + 1) rest = _
  rw [buildFrom_some]
  simp [append_run_to_master, blocksJoin]

theorem countData_blocksJoin : ∀ (rd : List (List ℚ × ℚ)) (rid : ℕ),
    countData (blocksJoin rid rd) = (rd.map (fun p => p.1.length)).sum := by
  intro rd
  induction rd with
  | nil => intro rid; rfl
  | cons p rest ih =>
    intro rid
    obtain ⟨vs, et⟩ := p
    show countData (dataRows rid vs et ++ blocksJoin (rid + 1) rest) = _
    unfold countData
    rw [List.countP_append]
    show countData (dataRows rid vs et) + countData (blocksJoin (rid + 1) rest) = _
    rw [countData_dataRows, ih]
    simp

theorem countHeader_blocksJoin : ∀ (rd : List (List ℚ × ℚ)) (rid : ℕ),
    countHeader (blocksJoin rid rd) = 0 := by
  intro rd
  induction rd with
  | nil => intro rid; rfl
  | cons p rest ih =>
    intro rid
    obtain ⟨vs, et⟩ := p
    show countHeader (dataRows rid vs et ++ blocksJoin (rid + 1) rest) = 0
    unfold countHeader
    rw [List.countP_append]
    show countHeader (dataRows rid vs et) + countHeader (blocksJoin (rid + 1) rest) = 0
    rw [countHeader_dataRows, ih]

theorem sum_len_const {K : ℕ} : ∀ (rd : List (List ℚ × ℚ)),
    (∀ p ∈ rd, p.1.length = K) →
    (rd.map (fun p => p.1.length)).sum = rd.length * K := by
  intro rd
  induction rd with
  | nil => intro _; simp
  | cons p rest ih =>
    intro h
    have hp : p.1.length = K := h p (List.mem_cons_self p rest)
    have hr := ih (fun q hq => h q (List.mem_cons_of_mem p hq))
    simp only [List.map_cons, List.sum_cons, hp, hr, List.length_cons]
    ring

/-! ## Claim C7 -/

/-- C7: `append_run_to_master` only appends — when the file exists, the
new content is the old content followed by data rows (every old row
unchanged and in its original position), and the call adds no header row;
the header row is written exactly when the file does not exist, in which
case the new content is the header followed by the data rows. -/
theorem c7_append_only (c : Master) (rid : ℕ) (vs : List ℚ) (et : ℚ) :
    append_run_to_master (some c) rid vs et = c ++ dataRows rid vs et ∧
    (∀ r ∈ dataRows rid vs et, isDataRow r = true) ∧
    append_run_to_master none rid vs et
      = MasterRow.header :: dataRows rid vs et :=
  ⟨rfl, dataRows_all_data rid vs et, rfl⟩

/-! ## Claim C2 -/

/-- C2: each call of `append_run_to_master` with `K` fitness values
appends exactly `K` data rows (header count unchanged when the file
exists, header exactly once and in front when it is created), and for
`N ≥ 1` runs of `K` values each starting without a master file, the final
master holds exactly `N×K` data rows plus one header row. -/
theorem c2_master_counts :
    (∀ (m : Master) (rid : ℕ) (vs : List ℚ) (et : ℚ),
       append_run_to_master (some m) rid vs et = m ++ dataRows rid vs et ∧
       countData (append_run_to_master (some m) rid vs et)
         = countData m + vs.length ∧
       countHeader (append_run_to_master (some m) rid vs et) = countHeader m) ∧
    (∀ (rid : ℕ) (vs : List ℚ) (et : ℚ),
       append_run_to_master none rid vs et
         = MasterRow.header :: dataRows rid vs et ∧
       countData (append_run_to_master none rid vs et) = vs.length) ∧
    (∀ (pf : PyFloat) (outs : ℕ → RunOutcome) (rd : List (List ℚ × ℚ))
       (K : ℕ), rd ≠ [] →
       (∀ i (h : i < rd.length), doRun pf (outs i) = .ok rd[i]) →
       (∀ p ∈ rd, p.1.length = K) →
       countData (((mainLoop pf outs rd.length 0 none []).master).getD [])
           = rd.length * K ∧
       countHeader (((mainLoop pf outs rd.length 0 none []).master).getD [])
           = 1) := by
  refine ⟨?_, ?_, ?_⟩
  · intro m rid vs et
    refine ⟨rfl, ?_, ?_⟩
    · show countData (m ++ dataRows rid vs et) = _
      unfold countData
      rw [List.countP_append]
      show countData m + countData (dataRows rid vs et) = _
      rw [countData_dataRows]
      rfl
    · show countHeader (m ++ dataRows rid vs et) = _
      unfold countHeader
      rw [List.countP_append]
      show countHeader m + countHeader (dataRows rid vs et) = _
      rw [countHeader_dataRows]
      rfl
  · intro rid vs et
    refine ⟨rfl, ?_⟩
    show countData (MasterRow.header :: dataRows rid vs et) = _
    unfold countData
    rw [List.countP_cons]
    show countData (dataRows rid vs et) + _ = _
    rw [countData_dataRows]
    simp [isDataRow]
  · intro pf outs rd K hne hall hK
    have hall0 : ∀ i (h : i < rd.length), doRun pf (outs (0 + i)) = .ok rd[i] := by
      intro i hi
      simpa using hall i hi
    rw [mainLoop_ok pf outs rd 0 none [] hall0]
    obtain ⟨p, rest, rfl⟩ := List.exists_cons_of_ne_nil hne
    obtain ⟨vs, et⟩ := p
    rw [buildFrom_none_cons]
    constructor
    · show countData (MasterRow.header :: blocksJoin 0 ((vs, et) :: rest))
        = ((vs, et) :: rest).length * K
      unfold countData
      rw [List.countP_cons]
      show countData (blocksJoin 0 ((vs, et) :: rest)) + _ = _
      rw [countData_blocksJoin, sum_len_const _ hK]
      simp [isDataRow]
    · show countHeader (MasterRow.header :: blocksJoin 0 ((vs, et) :: rest)) = 1
      unfold countHeader
      rw [List.countP_cons]
      show countHeader (blocksJoin 0 ((vs, et) :: rest)) + _ = 1
      rw [countHeader_blocksJoin]
      simp [isDataRow]

/-- C2 witness: two runs of the concrete successful outcome (one fitness
value each) yield a master with 2×1 data rows and one header. -/
theorem c2_witness :
    countData (((mainLoop pfDigits (fun _ => demoRun) 2 0 none
        []).master).getD []) = 2 * 1 ∧
    countHeader (((mainLoop pfDigits (fun _ => demoRun) 2 0 none
        []).master).getD []) = 1 :=
  c2_master_counts.2.2 pfDigits (fun _ => demoRun) [([3], 99), ([3], 99)] 1
    (by decide) (by decide) (by decide)

/-! ## Lemmas about `analyze_times_from_master` -/

theorem timesByRun_skip (r : ℕ) (et : ℚ) :
    ∀ (rows rest : Master) (acc : List (ℕ × ℚ)),
    (∀ x ∈ rows, ∃ a b, x = MasterRow.data r a b et) →
    acc.any (fun q => q.1 = r) = true →
    timesByRun (rows ++ rest) acc = timesByRun rest acc := by
  intro rows
  induction rows with
  | nil => intro rest acc _ _; rfl
  | cons x t ih =>
    intro rest acc hx hin
    obtain ⟨a, b, rfl⟩ := hx x (List.mem_cons_self x t)
    show timesByRun (MasterRow.data r a b et :: (t ++ rest)) acc = _
    simp only [timesByRun, if_pos hin]
    exact ih rest acc (fun y hy => hx y (List.mem_cons_of_mem _ hy)) hin

theorem timesByRun_block (r : ℕ) (et : ℚ) (vs : List ℚ) (rest : Master)
    (acc : List (ℕ × ℚ)) (hvs : vs ≠ [])
    (hnew : acc.any (fun q => q.1 = r) = false) :
    timesByRun (dataRows r vs et ++ rest) acc
      = timesByRun rest (acc ++ [(r, et)]) := by
  obtain ⟨v, vs', rfl⟩ := List.exists_cons_of_ne_nil hvs
  have hd : dataRows r (v :: vs') et
      = MasterRow.data r 0 v et
        :: (List.enumFrom 1 vs').map (fun p => MasterRow.data r p.1 p.2 et) := by
    simp [dataRows, List.enum_cons]
  rw [hd, List.cons_append]
  simp only [timesByRun, hnew, Bool.false_eq_true, if_false]
  refine timesByRun_skip r et _ rest (acc ++ [(r, et)]) ?_ ?_
  · intro x hx
    simp only [List.mem_map] at hx
    obtain ⟨p, _, rfl⟩ := hx
    exact ⟨p.1, p.2, rfl⟩
  · rw [List.any_append]
    simp

theorem timesByRun_blocks :
    ∀ (rd : List (List ℚ × ℚ)) (rid : ℕ) (acc : List (ℕ × ℚ)),
    (∀ p ∈ rd, p.1 ≠ []) → (∀ q ∈ acc, q.1 < rid) →
    timesByRun (blocksJoin rid rd) acc
      = .ok (acc ++ (List.enumFrom rid rd).map (fun p => (p.1, p.2.2))) := by
  intro rd
  induction rd with
  | nil => intro rid acc _ _; simp [blocksJoin, timesByRun]
  | cons p rest ih =>
    intro rid acc hne hlt
    obtain ⟨vs, et⟩ := p
    have hvs : vs ≠ [] := hne (vs, et) (List.mem_cons_self _ _)
    have hnew : acc.any (fun q => q.1 = rid) = false := by
      rw [List.any_eq_false]
      intro q hq
      simp only [decide_eq_true_eq]
      exact Nat.ne_of_lt (hlt q hq)
    show timesByRun (dataRows rid vs et ++ blocksJoin (rid + 1) rest) acc = _
    rw [timesByRun_block rid et vs _ acc hvs hnew]
    rw [ih (rid + 1) (acc ++ [(rid, et)])
      (fun q hq => hne q (List.mem_cons_of_mem _ hq)) ?_]
    · simp [List.enumFrom_cons, List.append_assoc]
    · intro q hq
      rcases List.mem_append.mp hq with h | h
      · exact Nat.lt_succ_of_lt (hlt q h)
      · have : q = (rid, et) := by simpa using h
        simp [this]

theorem enumFrom_times_snd : ∀ (ps : List (List ℚ × ℚ)) (n : ℕ),
    ((List.enumFrom n ps).map (fun q => (q.1, q.2.2))).map Prod.snd
      = ps.map Prod.snd := by
  intro ps
  induction ps with
  | nil => intro n; rfl
  | cons x t ih =>
    intro n
    simp only [List.enumFrom_cons, List.map_cons]
    rw [ih]

/-- `analyze_times_from_master` over a freshly built master: one timing
entry per run, numbered consecutively, with avg/min/max over exactly the
per-run times. -/
theorem analyze_times_blocks (p : List ℚ × ℚ) (ps : List (List ℚ × ℚ))
    (hne : ∀ q ∈ p :: ps, q.1 ≠ []) :
    analyze_times_from_master (MasterRow.header :: blocksJoin 0 (p :: ps))
      = .ok { runs := (p :: ps).length
              avg_ms := ((p :: ps).map Prod.snd).sum / ((p :: ps).length : ℚ)
              min_ms := (ps.map Prod.snd).foldl min p.2
              max_ms := (ps.map Prod.snd).foldl max p.2 } := by
  have htb := timesByRun_blocks (p :: ps) 0 [] hne (by simp)
  rw [List.nil_append, List.enumFrom_cons, List.map_cons] at htb
  have htb2 : timesByRun (blocksJoin 0 (p :: ps)) []
      = .ok ((0, p.2) :: (List.enumFrom 1 ps).map (fun q => (q.1, q.2.2))) := by
    simpa using htb
  have hsnd := enumFrom_times_snd ps 1
  have hlen : ((List.enumFrom 1 ps).map
      (fun q => (q.1, q.2.2))).length = ps.length := by
    rw [List.length_map, List.enumFrom_length]
  simp only [analyze_times_from_master, htb2, List.map_cons, hsnd,
    List.length_cons, hlen]

theorem all_ok_ne_nil {pf : PyFloat} {outs : ℕ → RunOutcome}
    {rd : List (List ℚ × ℚ)}
    (hall : ∀ i (h : i < rd.length), doRun pf (outs i) = .ok rd[i]) :
    ∀ q ∈ rd, q.1 ≠ [] := by
  intro q hq
  obtain ⟨i, hi, hqi⟩ := List.mem_iff_getElem.mp hq
  have hok := hall i hi
  rw [hqi] at hok
  obtain ⟨a, b⟩ := q
  exact doRun_ok_ne_nil hok

/-- `main` on a fresh master with every run succeeding: all runs execute,
the master is the header plus all data blocks, and the exit code is 0. -/
theorem pymain_fresh_all_ok (pf : PyFloat) (sq : ℚ → ℚ)
    (outs : ℕ → RunOutcome) (p : List ℚ × ℚ) (ps : List (List ℚ × ℚ))
    (hall : ∀ i (h : i < (p :: ps).length), doRun pf (outs i) = .ok (p :: ps)[i]) :
    pymain pf sq true true (((p :: ps).length : ℕ) : ℤ) outs none
      = ⟨some (MasterRow.header :: blocksJoin 0 (p :: ps)), (p :: ps).length,
         .ok 0, none⟩ := by
  obtain ⟨pv, pe⟩ := p
  have hne : ∀ q ∈ (pv, pe) :: ps, q.1 ≠ [] := all_ok_ne_nil hall
  have hpos : ¬ (((((pv, pe) :: ps).length : ℕ) : ℤ) ≤ 0) := by
    have h1 : (0 : ℤ) < ((((pv, pe) :: ps).length : ℕ) : ℤ) := by
      exact_mod_cast Nat.succ_pos ps.length
    omega
  have hall0 : ∀ i (h : i < ((pv, pe) :: ps).length),
      doRun pf (outs (0 + i)) = .ok ((pv, pe) :: ps)[i] := by
    intro i hi
    simpa using hall i hi
  have hp1 : pv ≠ [] := by
    have h0 := hall 0 (by simp)
    exact doRun_ok_ne_nil (by simpa using h0)
  obtain ⟨v, vt, hv⟩ := List.exists_cons_of_ne_nil hp1
  unfold pymain
  rw [if_neg (by simp), if_neg (by simp), if_neg hpos, Int.toNat_natCast,
    mainLoop_ok pf outs ((pv, pe) :: ps) 0 none [] hall0]
  have hflat : (((pv, pe) :: ps).map Prod.fst).flatten
      = v :: (vt ++ ((ps.map Prod.fst).flatten)) := by
    simp [hv]
  have hbf : buildFrom none 0 ((pv, pe) :: ps)
      = some (MasterRow.header :: blocksJoin 0 ((pv, pe) :: ps)) :=
    buildFrom_none_cons 0 pv pe ps
  have hat := analyze_times_blocks (pv, pe) ps hne
  simp only [finishMain, List.nil_append, hflat, analyze, hbf,
    Option.getD_some, hat]

/-! ## Claim C6 -/

/-- C6: when the exe path is missing, the config path is missing, or the
run count is not positive, `main` prints an `ERROR:` line to standard
error and returns exit code 2 with no run executed and the master file
untouched; and on a fully successful invocation (valid arguments, fresh
master, every run succeeding) `main` returns 0. -/
theorem c6_validation_and_success :
    (∀ (pf : PyFloat) (sq : ℚ → ℚ) (exeExists cfgExists : Bool) (runs : ℤ)
       (outs : ℕ → RunOutcome) (m0 : Option Master),
       exeExists = false ∨ cfgExists = false ∨ runs ≤ 0 →
       ∃ msg, pymain pf sq exeExists cfgExists runs outs m0
         = ⟨m0, 0, .ok 2, some msg⟩) ∧
    (∀ (pf : PyFloat) (sq : ℚ → ℚ) (outs : ℕ → RunOutcome)
       (p : List ℚ × ℚ) (ps : List (List ℚ × ℚ)),
       (∀ i (h : i < (p :: ps).length), doRun pf (outs i) = .ok (p :: ps)[i]) →
       (pymain pf sq true true (((p :: ps).length : ℕ) : ℤ) outs none).exit
         = .ok 0) := by
  constructor
  · intro pf sq exeE cfgE runs outs m0 h
    cases exeE with
    | false => exact ⟨"ERROR: exe not found", by simp [pymain]⟩
    | true =>
      cases cfgE with
      | false => exact ⟨"ERROR: config not found", by simp [pymain]⟩
      | true =>
        have hr : runs ≤ 0 := by
          rcases h with h | h | h
          · exact absurd h (by simp)
          · exact absurd h (by simp)
          · exact h
        exact ⟨"ERROR: --runs must be > 0", by simp [pymain, hr]⟩
  · intro pf sq outs p ps hall
    rw [pymain_fresh_all_ok pf sq outs p ps hall]

/-- C6 witness: a missing exe gives exit 2 with nothing executed, and a
concrete fully-successful single-run invocation returns 0. -/
theorem c6_witness :
    (∃ msg, pymain pfDigits id false true 1 (fun _ => demoRun) none
       = ⟨none, 0, .ok 2, some msg⟩) ∧
    (pymain pfDigits id true true ((([(([3] : List ℚ), (99 : ℚ))]).length : ℕ) : ℤ)
        (fun _ => demoRun) none).exit = .ok 0 := by
  constructor
  · exact c6_validation_and_success.1 pfDigits id false true 1
      (fun _ => demoRun) none (Or.inl rfl)
  · exact c6_validation_and_success.2 pfDigits id (fun _ => demoRun)
      (([3] : List ℚ), (99 : ℚ)) []
      (by
        intro i hi
        simp only [List.length_cons, List.length_nil] at hi
        have h0 : i = 0 := by omega
        subst h0
        simp only [List.getElem_cons_zero]
        decide)

/-! ## Claim C8 -/

/-- C8 counterexample: with a master CSV left over from an earlier
invocation (two runs, 10 ms and 20 ms), the current invocation executes
exactly one run but the runtime analytics report 2 runs — the reported
runs count is not the number of runs executed in the current invocation,
and the timing values are not the current invocation's per-run values. -/
theorem c8_counterexample :
    (pymain pfDigits id true true 1 (fun _ => demoRun)
        (some staleMaster)).executed = 1 ∧
    (analyze_times_from_master
        ((pymain pfDigits id true true 1 (fun _ => demoRun)
          (some staleMaster)).master.getD [])).map TimeStats.runs = .ok 2 ∧
    (2 : ℕ) ≠ 1 :=
  ⟨by decide, by decide, by decide⟩

/-- C8 (amended): when the master CSV does not exist at the start of the
invocation, the runtime analytics are computed from exactly one timing
value per run executed in the current invocation: the reported runs count
equals the number of runs executed, and average/min/max are taken over
those per-run values. -/
theorem c8_fresh_master_time_analytics (pf : PyFloat) (sq : ℚ → ℚ)
    (outs : ℕ → RunOutcome) (p : List ℚ × ℚ) (ps : List (List ℚ × ℚ))
    (hall : ∀ i (h : i < (p :: ps).length), doRun pf (outs i) = .ok (p :: ps)[i]) :
    (pymain pf sq true true (((p :: ps).length : ℕ) : ℤ) outs none).executed
        = (p :: ps).length ∧
    analyze_times_from_master
        ((pymain pf sq true true (((p :: ps).length : ℕ) : ℤ) outs
          none).master.getD [])
      = .ok { runs := (p :: ps).length
              avg_ms := ((p :: ps).map Prod.snd).sum / ((p :: ps).length : ℚ)
              min_ms := (ps.map Prod.snd).foldl min p.2
              max_ms := (ps.map Prod.snd).foldl max p.2 } := by
  rw [pymain_fresh_all_ok pf sq outs p ps hall]
  exact ⟨rfl, analyze_times_blocks p ps (all_ok_ne_nil hall)⟩

/-- C8 witness: one fresh run with eval time 99 ms reports 1 run with
avg/min/max all 99. -/
theorem c8_witness :
    (pymain pfDigits id true true
        ((([(([3] : List ℚ), (99 : ℚ))]).length : ℕ) : ℤ)
        (fun _ => demoRun) none).executed = 1 ∧
    analyze_times_from_master
        ((pymain pfDigits id true true
          ((([(([3] : List ℚ), (99 : ℚ))]).length : ℕ) : ℤ)
          (fun _ => demoRun) none).master.getD [])
      = .ok { runs := 1
              avg_ms := ([((99 : ℚ))]).sum / ((([(([3] : List ℚ), (99 : ℚ))]).length : ℕ) : ℚ)
              min_ms := 99
              max_ms := 99 } :=
  c8_fresh_master_time_analytics pfDigits id (fun _ => demoRun)
    (([3] : List ℚ), (99 : ℚ)) []
    (by
      intro i hi
      simp only [List.length_cons, List.length_nil] at hi
      have h0 : i = 0 := by omega
      subst h0
      simp only [List.getElem_cons_zero]
      decide)

end RunBench
